import Mathlib

/-!
# TxnZero Sync Engine — verification development

Shallow embedding of the sync engine of `Python Backend/app.py` (the
consolidated service) and `Python Backend/DB Poller/graph_sync_service.py`
(the standalone poller), together with proofs about cursor handling, the
feedback loop and the derived projection keys.

Modelling conventions:
* SQL timestamps (`created_at`) are totally ordered; the string format used
  by the code orders the same way as the underlying instants, so timestamps
  are embedded as `Nat`.
* numeric risk scores and amounts are embedded as `ℚ`;
* Python `dict`s, the Redis key space and the graph node set are embedded as
  association lists;
* a `try ... except` block is embedded by an explicit case split on a
  failure oracle: every network effect that the real code can observe to
  fail carries a `Bool` (or `Nat → Bool`, per batch index) saying whether
  it succeeds in this cycle.
-/

namespace TxnZero

/-! ## Python string helpers used by the sync engine -/

/-- `str.replace("+91", "")`: left-to-right removal of every occurrence of
the pattern `+91`, as in `app.py` line 186. -/
def stripPlus91 : List Char → List Char
  | '+' :: '9' :: '1' :: cs => stripPlus91 cs
  | c :: cs => c :: stripPlus91 cs
  | [] => []

/-- `str.strip()`: drop leading and trailing whitespace. -/
def trimChars (s : List Char) : List Char :=
  ((s.dropWhile Char.isWhitespace).reverse.dropWhile Char.isWhitespace).reverse

/-- `payer_vpa.split('@')[0]` (`app.py` line 246): everything before the
first `@`, or the whole string when there is none. -/
def vpaLocalPart (v : String) : String :=
  ⟨v.data.takeWhile (fun c => c ≠ '@')⟩

/-! ## Derived projection keys (the two Entity Reader versions) -/

/-- Projection identifier computed by the consolidated app service
(`app.py` lines 186 and 192): strip the `+91` country code, strip
whitespace, append `@okaxis`. -/
def appDerivedKey (phone : String) : String :=
  ⟨trimChars (stripPlus91 phone.data) ++ "@okaxis".data⟩

/-- The vpa string computed by the DB Poller service
(`graph_sync_service.py` line 137): the raw phone number with `@upibank`
appended, no country-code stripping. -/
def pollerDerivedKey (phone : String) : String :=
  ⟨phone.data ++ "@upibank".data⟩

/-! ## Association lists (Python dicts, Redis key space, graph node sets) -/

/-- Python `dict` assignment / Redis `SET` / Cypher `MERGE ... SET`:
replace the first binding of the key, or append a new binding. -/
def assocSet {α : Type} : List (String × α) → String → α → List (String × α)
  | [], k, v => [(k, v)]
  | e :: rest, k, v => if e.1 == k then (k, v) :: rest else e :: assocSet rest k v

/-- Python `dict` lookup / Redis `GET`: the first binding of the key. -/
def assocGet {α : Type} : List (String × α) → String → Option α
  | [], _ => none
  | e :: rest, k => if e.1 == k then some e.2 else assocGet rest k

/-! ## Rows pulled from the relational sources -/

/-- A row of the `transactions` table as selected in `app.py` lines
218-224 (`global_txn_id, payer_vpa, payee_vpa, amount, ml_fraud_score,
created_at`, plus the `status` column the `WHERE` clause inspects).
`created_at` is embedded as a `Nat` instant. -/
structure TxnRow where
  tid : String
  payer : String
  payee : String
  amount : ℚ
  risk : ℚ
  ts : Nat
  status : String
deriving DecidableEq, Repr

/-- The status filter of the app query (`app.py` line 222). -/
def settledTxn (r : TxnRow) : Bool :=
  r.status == "SUCCESS" || r.status == "BLOCKED_FRAUD"

/-- `ORDER BY created_at ASC` as a Bool comparison for `mergeSort`. -/
def txnLe (a b : TxnRow) : Bool := a.ts ≤ b.ts

/-- The read of `sync_transactions` (`app.py` lines 218-227):
rows strictly newer than the watermark, settled or blocked only,
ordered by `created_at` ascending, capped at 1000. -/
def pullTxns (table : List TxnRow) (w : Nat) : List TxnRow :=
  ((table.filter fun r => decide (w < r.ts) && settledTxn r).mergeSort txnLe).take 1000

/-- A row of the `users` table as selected in `app.py` lines 174-176.
`risk_score` is `none` for SQL NULL / NaN. -/
structure UserRow where
  uid : Nat
  phone : String
  kycStatus : String
  risk : Option ℚ
  ts : Nat
deriving DecidableEq, Repr

def userLe (a b : UserRow) : Bool := a.ts ≤ b.ts

/-- The read of `sync_users` (`app.py` lines 172-179): with `force` the
watermark is ignored and the table is read from the beginning; either way
ordered by `created_at` ascending and capped at 1000. -/
def pullUsers (table : List UserRow) (w : Nat) (force : Bool) : List UserRow :=
  if force then (table.mergeSort userLe).take 1000
  else ((table.filter fun r => decide (w < r.ts)).mergeSort userLe).take 1000

/-! ## Projection of a user row (`app.py` lines 186-202) -/

/-- Properties written onto the `User` graph node. -/
structure UserProps where
  phone : String
  kyc : ℚ
  riskScore : ℚ
deriving DecidableEq, Repr

/-- `phone_str` of `app.py` line 186. -/
def appPhoneStr (r : UserRow) : String :=
  ⟨trimChars (stripPlus91 r.phone.data)⟩

/-- The node key `estimated_vpa` (`app.py` line 192). -/
def appUserKey (r : UserRow) : String := appDerivedKey r.phone

/-- The properties set on the merged node (`app.py` lines 187-198). -/
def appUserProps (r : UserRow) : UserProps :=
  { phone := appPhoneStr r,
    kyc := if r.kycStatus == "VERIFIED" then 1 else 0,
    riskScore := (r.risk.getD 0) / 100 }

/-- The feature vector `[norm_risk, kyc_val]` cached at
`user:<vpa>:features` (`app.py` lines 201-202). -/
def appUserFeatures (r : UserRow) : ℚ × ℚ :=
  ((r.risk.getD 0) / 100, if r.kycStatus == "VERIFIED" then 1 else 0)

/-- The node key used by the DB Poller version
(`graph_sync_service.py` line 133): `toString(user_id)`. -/
def pollerUserKey (r : UserRow) : String := toString r.uid

/-- Properties set by the poller's user merge
(`graph_sync_service.py` lines 132-139): raw phone, raw kyc status, the
risk as a float (`none` embeds SQL NULL), and the derived `vpa`
property. -/
structure PollerUserProps where
  phone : String
  kyc : String
  riskScore : Option ℚ
  vpa : String
deriving DecidableEq, Repr

def pollerUserProps (r : UserRow) : PollerUserProps :=
  { phone := r.phone, kyc := r.kycStatus, riskScore := r.risk,
    vpa := pollerDerivedKey r.phone }

/-! ## The engine state -/

/-- The mutable state the sync engine touches: the in-memory `self.state`
watermarks, the Redis-stored `sync:*` watermarks, the graph, the feature
cache and the relational `users.risk_score` column (keyed by
`phone_number`). The transaction graph is kept as the append log of
fully committed per-record write units. -/
structure EngineState where
  memUserW : Nat
  memTxnW : Nat
  storeUserW : Nat
  storeTxnW : Nat
  userGraph : List (String × UserProps)
  txnGraph : List TxnRow
  cache : List (String × (ℚ × ℚ))
  riskDB : List (String × ℚ)
deriving DecidableEq, Repr

/-- Failure oracle for one `sync_transactions` cycle: whether the SQL read
succeeds, whether the graph write / feedback relational write / feedback
cache update for the batch row at each index succeeds, and whether the
final cursor write to Redis succeeds. -/
structure TxnOracle where
  readOk : Bool
  graphOk : Nat → Bool
  fbRelOk : Nat → Bool
  fbCacheOk : Nat → Bool
  saveOk : Bool

/-- Failure oracle for one `sync_users` cycle. -/
structure UserOracle where
  readOk : Bool
  graphOk : Nat → Bool
  cacheOk : Nat → Bool
  saveOk : Bool

/-! ## The Feedback Loop (`app.py` lines 241-263) -/

/-- The SQL `UPDATE users SET risk_score = GREATEST(risk_score, v)
WHERE phone_number LIKE '%local'` of `app.py` line 251. -/
def ratchetRisk (db : List (String × ℚ)) (localPart : String) (v : ℚ) :
    List (String × ℚ) :=
  db.map fun e =>
    if localPart.data.isSuffixOf e.1.data then (e.1, max e.2 v) else e

/-- The Redis feature key `user:<payer_vpa>:features` (`app.py` line 257). -/
def fbCacheKey (payer : String) : String := "user:" ++ payer ++ ":features"

/-- One feedback-loop invocation for one transaction row (`app.py` lines
242-263, the inner `try`): nothing happens unless the risk exceeds 0.50;
then the relational ratchet write runs, and if it succeeded the cached
vector is rewritten as `[txn_risk, previous kyc element]` (kyc defaulting
to `0.0` when no entry exists). Each failure is caught by the inner
`except`, so the invocation always returns a state. -/
def feedbackTxn (relOk cacheOk : Bool) (r : TxnRow) (st : EngineState) :
    EngineState :=
  if r.risk > 1/2 then
    if relOk then
      let st1 :=
        { st with
          riskDB := ratchetRisk st.riskDB (vpaLocalPart r.payer) (r.risk * 100) }
      if cacheOk then
        let kyc : ℚ :=
          match assocGet st1.cache (fbCacheKey r.payer) with
          | some v => v.2
          | none => 0
        { st1 with
          cache := assocSet st1.cache (fbCacheKey r.payer) (r.risk, kyc) }
      else st1
    else st
  else st

/-! ## The per-row loops and cycle bodies -/

/-- The row loop of `sync_transactions` (`app.py` lines 232-263): the
graph write for each row is one unit; if it fails the exception leaves the
loop (outer `except`, flag `false`), while feedback failures are absorbed
by the inner `except`. -/
def processTxnRows (o : TxnOracle) :
    List TxnRow → Nat → EngineState → EngineState × Bool
  | [], _, st => (st, true)
  | r :: rs, i, st =>
    if o.graphOk i then
      let st1 := { st with txnGraph := st.txnGraph ++ [r] }
      let st2 := feedbackTxn (o.fbRelOk i) (o.fbCacheOk i) r st1
      processTxnRows o rs (i + 1) st2
    else (st, false)

/-- One `sync_transactions` cycle (`app.py` lines 211-270): read, loop,
then `save_state` (which always updates the in-memory dict and writes the
Redis key only when the store accepts it, lines 159-163). A read failure
or a mid-batch graph failure is caught by the outer `except` and skips
`save_state`. -/
def syncTransactions (o : TxnOracle) (table : List TxnRow)
    (st : EngineState) : EngineState :=
  if o.readOk then
    let batch := pullTxns table st.memTxnW
    match batch.getLast? with
    | none => st
    | some last =>
      match processTxnRows o batch 0 st with
      | (st1, true) =>
        let st2 := { st1 with memTxnW := last.ts }
        if o.saveOk then { st2 with storeTxnW := last.ts } else st2
      | (st1, false) => st1
  else st

/-- The row loop of `sync_users` (`app.py` lines 184-202): per row, the
graph merge then the feature-cache write; either failure escapes to the
outer `except` (flag `false`). -/
def processUserRows (o : UserOracle) :
    List UserRow → Nat → EngineState → EngineState × Bool
  | [], _, st => (st, true)
  | r :: rs, i, st =>
    if o.graphOk i then
      let st1 :=
        { st with userGraph := assocSet st.userGraph (appUserKey r) (appUserProps r) }
      if o.cacheOk i then
        let st2 :=
          { st1 with
            cache := assocSet st1.cache ("user:" ++ appUserKey r ++ ":features")
              (appUserFeatures r) }
        processUserRows o rs (i + 1) st2
      else (st1, false)
    else (st, false)

/-- One `sync_users` cycle (`app.py` lines 167-209): read (full or
incremental), loop, and `save_state` only when `force` is not set
(line 204). -/
def syncUsers (o : UserOracle) (force : Bool) (table : List UserRow)
    (st : EngineState) : EngineState :=
  if o.readOk then
    let batch := pullUsers table st.memUserW force
    match batch.getLast? with
    | none => st
    | some last =>
      match processUserRows o batch 0 st with
      | (st1, true) =>
        if force then st1
        else
          let st2 := { st1 with memUserW := last.ts }
          if o.saveOk then { st2 with storeUserW := last.ts } else st2
      | (st1, false) => st1
  else st

/-- One scheduled cycle of either stream, with its own failure oracle and
its own snapshot of the relational table. -/
inductive Cycle
  | users (o : UserOracle) (force : Bool) (table : List UserRow)
  | txns (o : TxnOracle) (table : List TxnRow)

def stepCycle (c : Cycle) (st : EngineState) : EngineState :=
  match c with
  | .users o force table => syncUsers o force table st
  | .txns o table => syncTransactions o table st

/-- A sequence of sync cycles, earliest first. -/
def runCycles (cs : List Cycle) (st : EngineState) : EngineState :=
  cs.foldl (fun s c => stepCycle c s) st

/-- The relation between the in-memory watermarks and the stored ones that
`load_state` establishes and every cycle preserves: the store never runs
ahead of memory. -/
def WInv (st : EngineState) : Prop :=
  st.storeUserW ≤ st.memUserW ∧ st.storeTxnW ≤ st.memTxnW

/-! ## The Cursor Store at the string level (`load_state` / `save_state`)

For the startup and cursor-write claims the exact string behaviour of the
two services matters, so here the Redis store is embedded directly over
strings: either reachable with a key space, or unreachable (every call
raises). -/

inductive PersistenceError
  | unreachable
deriving DecidableEq, Repr

inductive RedisState
  | up (kv : List (String × String))
  | down
deriving DecidableEq, Repr

/-- `redis.get`: raises when the store is unreachable. -/
def redisGet (r : RedisState) (k : String) :
    Except PersistenceError (Option String) :=
  match r with
  | .down => .error .unreachable
  | .up kv => .ok (assocGet kv k)

/-- `redis.set`: raises when the store is unreachable. -/
def redisSet (r : RedisState) (k v : String) :
    Except PersistenceError RedisState :=
  match r with
  | .down => .error .unreachable
  | .up kv => .ok (.up (assocSet kv k v))

/-- The body of the `try` in `app.py` `load_state` (lines 151-155): two
gets, each defaulted to the epoch string when the key is absent. -/
def appLoadAttempt (r : RedisState) :
    Except PersistenceError (List (String × String)) := do
  let u ← redisGet r "sync:last_user_time"
  let t ← redisGet r "sync:last_txn_time"
  return [("last_user_time", u.getD "2023-01-01 00:00:00"),
          ("last_txn_time", t.getD "2023-01-01 00:00:00")]

/-- `app.py` `load_state` (lines 150-157): the bare `except` swallows the
connection error and substitutes the short-form default dict. -/
def appLoadState (r : RedisState) : List (String × String) :=
  match appLoadAttempt r with
  | .ok s => s
  | .error _ => [("last_user_time", "2023-01-01"), ("last_txn_time", "2023-01-01")]

/-- Service construction in `app.py` (`__init__`, line 103, invoked from
the FastAPI startup hook): `load_state` total, so startup always yields a
service state. -/
def appStartup (r : RedisState) :
    Except PersistenceError (List (String × String)) :=
  .ok (appLoadState r)

/-- `graph_sync_service.py` `load_state` (lines 67-90): three gets with
the epoch default; the `except` re-raises, so an unreachable store
escalates out of `__init__` and halts the poller. -/
def pollerLoadState (r : RedisState) :
    Except PersistenceError (List (String × String)) := do
  let u ← redisGet r "sync:last_user_time"
  let d ← redisGet r "sync:last_device_time"
  let t ← redisGet r "sync:last_txn_time"
  return [("last_user_time", u.getD "2023-01-01 00:00:00"),
          ("last_device_time", d.getD "2023-01-01 00:00:00"),
          ("last_txn_time", t.getD "2023-01-01 00:00:00")]

/-- Poller startup is exactly the escalation of `load_state`. -/
def pollerStartup (r : RedisState) :
    Except PersistenceError (List (String × String)) :=
  pollerLoadState r

/-- `app.py` `save_state` (lines 159-163): the in-memory dict entry is
assigned first, then the Redis write; the bare `except: pass` turns a
write failure into a normal return, so the caller never observes an
error. The result is the new in-memory dict and the (possibly unchanged)
store. -/
def appSaveState (r : RedisState) (state : List (String × String))
    (key value : String) :
    Except PersistenceError (List (String × String) × RedisState) :=
  let mem := assocSet state key value
  match redisSet r ("sync:" ++ key) value with
  | .ok r2 => .ok (mem, r2)
  | .error _ => .ok (mem, r)

/-- `graph_sync_service.py` `save_state` (lines 92-99): three writes of
the in-memory values; the `except` logs and returns normally, leaving the
store as it was before the failing call sequence. -/
def pollerSaveState (r : RedisState) (state : List (String × String)) :
    Except PersistenceError RedisState :=
  match (do
    let r1 ← redisSet r "sync:last_user_time"
      ((assocGet state "last_user_time").getD "")
    let r2 ← redisSet r1 "sync:last_device_time"
      ((assocGet state "last_device_time").getD "")
    redisSet r2 "sync:last_txn_time"
      ((assocGet state "last_txn_time").getD "")) with
  | .ok r3 => .ok r3
  | .error _ => .ok r

/-- Fixture for the batch-cap counterexample: 1001 user rows with
distinct ids and ascending timestamps. -/
def usersTableBig : List UserRow :=
  (List.range 1001).map fun i => ⟨i, "", "", none, i⟩

/-! Concrete fixtures used to instantiate the theorems below. -/

def okTxnOracle : TxnOracle :=
  ⟨true, fun _ => true, fun _ => true, fun _ => true, true⟩

def okUserOracle : UserOracle :=
  ⟨true, fun _ => true, fun _ => true, true⟩

/-- A transaction oracle whose graph write fails on the first row. -/
def graphFailTxnOracle : TxnOracle :=
  ⟨true, fun _ => false, fun _ => true, fun _ => true, true⟩

/-- A transaction oracle whose feedback steps all fail. -/
def fbFailTxnOracle : TxnOracle :=
  ⟨true, fun _ => true, fun _ => false, fun _ => false, true⟩

/-- A user oracle whose feature-cache write fails on the first row. -/
def cacheFailUserOracle : UserOracle :=
  ⟨true, fun _ => true, fun _ => false, true⟩

/-- The engine state right after a first-run `load_state`. -/
def st0 : EngineState := ⟨0, 0, 0, 0, [], [], [], []⟩

def txnRowA : TxnRow :=
  ⟨"t1", "9876543210@okaxis", "5550001111@okaxis", 0, 0, 5, "SUCCESS"⟩

def txnRowB : TxnRow :=
  ⟨"t2", "9876543210@okaxis", "5550001111@okaxis", 0, 1, 7, "BLOCKED_FRAUD"⟩

def userRowA : UserRow := ⟨1, "+919876543210", "VERIFIED", none, 3⟩

/-- Same phone number as `userRowA`, every other field different. -/
def userRowB : UserRow := ⟨2, "+919876543210", "PENDING", some 5, 9⟩

def txnRowC : TxnRow :=
  ⟨"t3", "9876543210@okaxis", "5550001111@okaxis", 0, 3/5, 9, "SUCCESS"⟩

/-- A state holding one relational user row and one cached feature vector
for the payer of `txnRowB`/`txnRowC`. -/
def stRisk : EngineState :=
  ⟨0, 0, 0, 0, [], [],
    [("user:9876543210@okaxis:features", (0, 1))],
    [("9876543210", 30)]⟩

/-- A sequence of feedback-loop invocations (each with its own failure
flags for the relational and the cache step), earliest first. -/
def feedbackFold (steps : List (Bool × Bool × TxnRow)) (st : EngineState) :
    EngineState :=
  steps.foldl (fun s p => feedbackTxn p.1 p.2.1 p.2.2 s) st

/-- Pointwise comparison of two states of the relational `risk_score`
column: same rows in the same order, each risk at least as large. -/
def riskNondec (a b : List (String × ℚ)) : Prop :=
  List.Forall₂ (fun x y => x.1 = y.1 ∧ x.2 ≤ y.2) a b

/-! ## Helper lemmas -/

theorem getLast?_mem {α : Type} {l : List α} {a : α}
    (h : l.getLast? = some a) : a ∈ l := by
  rw [List.getLast?_eq_some_iff] at h
  obtain ⟨ys, rfl⟩ := h
  exact List.mem_concat_self ys a

theorem assocGet_assocSet_self {α : Type} (m : List (String × α))
    (k : String) (v : α) : assocGet (assocSet m k v) k = some v := by
  induction m with
  | nil => simp [assocSet, assocGet]
  | cons e rest ih =>
    cases h : e.1 == k with
    | true => simp [assocSet, assocGet, h]
    | false => simp [assocSet, assocGet, h, ih]

theorem assocSet_idem {α : Type} (m : List (String × α)) (k : String)
    (v : α) : assocSet (assocSet m k v) k v = assocSet m k v := by
  induction m with
  | nil => simp [assocSet]
  | cons e rest ih =>
    cases h : e.1 == k with
    | true => simp [assocSet, h]
    | false => simp [assocSet, h, ih]

theorem feedbackTxn_frame (a b : Bool) (r : TxnRow) (st : EngineState) :
    (feedbackTxn a b r st).memUserW = st.memUserW ∧
    (feedbackTxn a b r st).memTxnW = st.memTxnW ∧
    (feedbackTxn a b r st).storeUserW = st.storeUserW ∧
    (feedbackTxn a b r st).storeTxnW = st.storeTxnW ∧
    (feedbackTxn a b r st).txnGraph = st.txnGraph ∧
    (feedbackTxn a b r st).userGraph = st.userGraph := by
  unfold feedbackTxn
  split
  · split
    · split
      · exact ⟨rfl, rfl, rfl, rfl, rfl, rfl⟩
      · exact ⟨rfl, rfl, rfl, rfl, rfl, rfl⟩
    · exact ⟨rfl, rfl, rfl, rfl, rfl, rfl⟩
  · exact ⟨rfl, rfl, rfl, rfl, rfl, rfl⟩

theorem processTxnRows_frame (o : TxnOracle) (rows : List TxnRow)
    (i : Nat) (st : EngineState) :
    (processTxnRows o rows i st).1.memUserW = st.memUserW ∧
    (processTxnRows o rows i st).1.memTxnW = st.memTxnW ∧
    (processTxnRows o rows i st).1.storeUserW = st.storeUserW ∧
    (processTxnRows o rows i st).1.storeTxnW = st.storeTxnW ∧
    (processTxnRows o rows i st).1.userGraph = st.userGraph := by
  induction rows generalizing i st with
  | nil => exact ⟨rfl, rfl, rfl, rfl, rfl⟩
  | cons r rs ih =>
    cases h : o.graphOk i with
    | false => simp [processTxnRows, h]
    | true =>
      have hf := feedbackTxn_frame (o.fbRelOk i) (o.fbCacheOk i) r
        { st with txnGraph := st.txnGraph ++ [r] }
      have hrec := ih (i + 1)
        (feedbackTxn (o.fbRelOk i) (o.fbCacheOk i) r
          { st with txnGraph := st.txnGraph ++ [r] })
      simp only [processTxnRows, h, if_true]
      exact ⟨hrec.1.trans hf.1, hrec.2.1.trans hf.2.1,
        hrec.2.2.1.trans hf.2.2.1, hrec.2.2.2.1.trans hf.2.2.2.1,
        hrec.2.2.2.2.trans hf.2.2.2.2.2⟩

theorem processTxnRows_complete (o : TxnOracle) (rows : List TxnRow)
    (i : Nat) (st : EngineState) (h : ∀ j, o.graphOk j = true) :
    (processTxnRows o rows i st).2 = true ∧
    (processTxnRows o rows i st).1.txnGraph = st.txnGraph ++ rows := by
  induction rows generalizing i st with
  | nil => simp [processTxnRows]
  | cons r rs ih =>
    have hf := feedbackTxn_frame (o.fbRelOk i) (o.fbCacheOk i) r
      { st with txnGraph := st.txnGraph ++ [r] }
    have hrec := ih (i + 1)
      (feedbackTxn (o.fbRelOk i) (o.fbCacheOk i) r
        { st with txnGraph := st.txnGraph ++ [r] })
    simp only [processTxnRows, h i, if_true]
    refine ⟨hrec.1, ?_⟩
    rw [hrec.2, hf.2.2.2.2.1]
    simp

theorem processTxnRows_abort (o : TxnOracle) (rows : List TxnRow)
    (k : Nat) (st : EngineState) (i : Nat) (hi : i < rows.length)
    (hfail : o.graphOk (k + i) = false)
    (hok : ∀ j, j < i → o.graphOk (k + j) = true) :
    (processTxnRows o rows k st).2 = false ∧
    (processTxnRows o rows k st).1.txnGraph = st.txnGraph ++ rows.take i := by
  induction rows generalizing k st i with
  | nil => exact absurd hi (by simp)
  | cons r rs ih =>
    cases i with
    | zero =>
      simp only [Nat.add_zero] at hfail
      simp [processTxnRows, hfail]
    | succ i2 =>
      have hk : o.graphOk k = true := by
        have := hok 0 (Nat.succ_pos i2)
        simpa using this
      have hf := feedbackTxn_frame (o.fbRelOk k) (o.fbCacheOk k) r
        { st with txnGraph := st.txnGraph ++ [r] }
      have hrec := ih (k + 1)
        (feedbackTxn (o.fbRelOk k) (o.fbCacheOk k) r
          { st with txnGraph := st.txnGraph ++ [r] }) i2
        (by simpa using Nat.lt_of_succ_lt_succ hi)
        (by
          have : k + 1 + i2 = k + (i2 + 1) := by omega
          rw [this]; exact hfail)
        (by
          intro j hj
          have : k + 1 + j = k + (j + 1) := by omega
          rw [this]; exact hok (j + 1) (Nat.succ_lt_succ hj))
      simp only [processTxnRows, hk, if_true]
      refine ⟨hrec.1, ?_⟩
      rw [hrec.2, hf.2.2.2.2.1]
      simp [List.take_cons]

theorem processUserRows_frame (o : UserOracle) (rows : List UserRow)
    (i : Nat) (st : EngineState) :
    (processUserRows o rows i st).1.memUserW = st.memUserW ∧
    (processUserRows o rows i st).1.memTxnW = st.memTxnW ∧
    (processUserRows o rows i st).1.storeUserW = st.storeUserW ∧
    (processUserRows o rows i st).1.storeTxnW = st.storeTxnW ∧
    (processUserRows o rows i st).1.txnGraph = st.txnGraph ∧
    (processUserRows o rows i st).1.riskDB = st.riskDB := by
  induction rows generalizing i st with
  | nil => exact ⟨rfl, rfl, rfl, rfl, rfl, rfl⟩
  | cons r rs ih =>
    cases hg : o.graphOk i with
    | false => simp [processUserRows, hg]
    | true =>
      cases hc : o.cacheOk i with
      | false => simp [processUserRows, hg, hc]
      | true =>
        simp only [processUserRows, hg, hc, if_true]
        exact ih (i + 1) _

theorem processUserRows_complete (o : UserOracle) (rows : List UserRow)
    (i : Nat) (st : EngineState) (hg : ∀ j, o.graphOk j = true)
    (hc : ∀ j, o.cacheOk j = true) :
    (processUserRows o rows i st).2 = true := by
  induction rows generalizing i st with
  | nil => simp [processUserRows]
  | cons r rs ih =>
    simp only [processUserRows, hg i, hc i, if_true]
    exact ih (i + 1) _

theorem processUserRows_abort (o : UserOracle) (rows : List UserRow)
    (k : Nat) (st : EngineState) (i : Nat) (hi : i < rows.length)
    (hfail : (o.graphOk (k + i) && o.cacheOk (k + i)) = false)
    (hok : ∀ j, j < i → (o.graphOk (k + j) && o.cacheOk (k + j)) = true) :
    (processUserRows o rows k st).2 = false := by
  induction rows generalizing k st i with
  | nil => exact absurd hi (by simp)
  | cons r rs ih =>
    cases i with
    | zero =>
      simp only [Nat.add_zero, Bool.and_eq_false_iff] at hfail
      rcases hfail with hg | hc
      · simp [processUserRows, hg]
      · cases hg2 : o.graphOk k with
        | false => simp [processUserRows, hg2]
        | true => simp [processUserRows, hg2, hc]
    | succ i2 =>
      have hk : (o.graphOk k && o.cacheOk k) = true := by
        have := hok 0 (Nat.succ_pos i2)
        simpa using this
      rw [Bool.and_eq_true] at hk
      simp only [processUserRows, hk.1, hk.2, if_true]
      exact ih (k + 1) _ i2
        (by simpa using Nat.lt_of_succ_lt_succ hi)
        (by
          have : k + 1 + i2 = k + (i2 + 1) := by omega
          rw [this]; exact hfail)
        (by
          intro j hj
          have : k + 1 + j = k + (j + 1) := by omega
          rw [this]; exact hok (j + 1) (Nat.succ_lt_succ hj))

theorem mem_pullTxns_lt (table : List TxnRow) (w : Nat) (r : TxnRow)
    (h : r ∈ pullTxns table w) : w < r.ts := by
  unfold pullTxns at h
  have h2 := List.take_subset _ _ h
  have h3 := (List.mergeSort_perm
    (table.filter fun r => decide (w < r.ts) && settledTxn r) txnLe).mem_iff.mp h2
  have h4 := (List.mem_filter.mp h3).2
  rw [Bool.and_eq_true, decide_eq_true_iff] at h4
  exact h4.1

theorem mem_pullUsers_lt (table : List UserRow) (w : Nat) (r : UserRow)
    (h : r ∈ pullUsers table w false) : w < r.ts := by
  unfold pullUsers at h
  simp only [if_neg Bool.false_ne_true] at h
  have h2 := List.take_subset _ _ h
  have h3 := (List.mergeSort_perm
    (table.filter fun r => decide (w < r.ts)) userLe).mem_iff.mp h2
  have h4 := (List.mem_filter.mp h3).2
  rwa [decide_eq_true_iff] at h4

theorem pullTxns_sorted (table : List TxnRow) (w : Nat) :
    (pullTxns table w).Pairwise fun a b => a.ts ≤ b.ts := by
  have hs := @List.sorted_mergeSort TxnRow txnLe
    (by
      intro a b c hab hbc
      rw [txnLe, decide_eq_true_iff] at hab hbc ⊢
      exact Nat.le_trans hab hbc)
    (by
      intro a b
      rw [Bool.or_eq_true, txnLe, txnLe, decide_eq_true_iff, decide_eq_true_iff]
      exact Nat.le_total a.ts b.ts)
    (table.filter fun r => decide (w < r.ts) && settledTxn r)
  have ht := List.Pairwise.sublist (List.take_sublist 1000 _) hs
  unfold pullTxns
  exact ht.imp fun hab => by
    rw [txnLe, decide_eq_true_iff] at hab
    exact hab

theorem syncTransactions_success (o : TxnOracle) (table : List TxnRow)
    (st : EngineState) (last : TxnRow) (hread : o.readOk = true)
    (hg : ∀ j, o.graphOk j = true) (hsave : o.saveOk = true)
    (hlast : (pullTxns table st.memTxnW).getLast? = some last) :
    (syncTransactions o table st).storeTxnW = last.ts ∧
    (syncTransactions o table st).memTxnW = last.ts ∧
    (syncTransactions o table st).txnGraph =
      st.txnGraph ++ pullTxns table st.memTxnW ∧
    (syncTransactions o table st).storeUserW = st.storeUserW ∧
    (syncTransactions o table st).memUserW = st.memUserW := by
  have hc := processTxnRows_complete o (pullTxns table st.memTxnW) 0 st hg
  have hf := processTxnRows_frame o (pullTxns table st.memTxnW) 0 st
  rcases hEq : processTxnRows o (pullTxns table st.memTxnW) 0 st with ⟨st1, flag⟩
  rw [hEq] at hc hf
  simp only at hc hf
  unfold syncTransactions
  simp [hread, hlast, hEq, hc.1, hsave, hc.2, hf.1, hf.2.2.1]

theorem syncUsers_success (o : UserOracle) (table : List UserRow)
    (st : EngineState) (last : UserRow) (hread : o.readOk = true)
    (hg : ∀ j, o.graphOk j = true) (hca : ∀ j, o.cacheOk j = true)
    (hsave : o.saveOk = true)
    (hlast : (pullUsers table st.memUserW false).getLast? = some last) :
    (syncUsers o false table st).storeUserW = last.ts ∧
    (syncUsers o false table st).memUserW = last.ts ∧
    (syncUsers o false table st).storeTxnW = st.storeTxnW ∧
    (syncUsers o false table st).memTxnW = st.memTxnW := by
  have hc := processUserRows_complete o (pullUsers table st.memUserW false) 0 st hg hca
  have hf := processUserRows_frame o (pullUsers table st.memUserW false) 0 st
  rcases hEq : processUserRows o (pullUsers table st.memUserW false) 0 st with ⟨st1, flag⟩
  rw [hEq] at hc hf
  simp only at hc hf
  unfold syncUsers
  simp [hread, hlast, hEq, hc, hsave, hf.2.1, hf.2.2.2.1]

theorem syncUsers_force_frame (o : UserOracle) (table : List UserRow)
    (st : EngineState) :
    (syncUsers o true table st).memUserW = st.memUserW ∧
    (syncUsers o true table st).memTxnW = st.memTxnW ∧
    (syncUsers o true table st).storeUserW = st.storeUserW ∧
    (syncUsers o true table st).storeTxnW = st.storeTxnW := by
  unfold syncUsers
  cases hread : o.readOk with
  | false => simp
  | true =>
    simp only [if_true]
    cases hlast : (pullUsers table st.memUserW true).getLast? with
    | none => exact ⟨rfl, rfl, rfl, rfl⟩
    | some last =>
      have hf := processUserRows_frame o (pullUsers table st.memUserW true) 0 st
      rcases hEq : processUserRows o (pullUsers table st.memUserW true) 0 st with ⟨st1, flag⟩
      rw [hEq] at hf
      simp only at hf
      cases flag with
      | true => exact ⟨hf.1, hf.2.1, hf.2.2.1, hf.2.2.2.1⟩
      | false => exact ⟨hf.1, hf.2.1, hf.2.2.1, hf.2.2.2.1⟩

theorem syncTransactions_readfail (o : TxnOracle) (table : List TxnRow)
    (st : EngineState) (hread : o.readOk = false) :
    syncTransactions o table st = st := by
  unfold syncTransactions
  simp [hread]

theorem syncUsers_readfail (o : UserOracle) (force : Bool)
    (table : List UserRow) (st : EngineState) (hread : o.readOk = false) :
    syncUsers o force table st = st := by
  unfold syncUsers
  simp [hread]

theorem syncTransactions_abort (o : TxnOracle) (table : List TxnRow)
    (st : EngineState) (i : Nat) (hread : o.readOk = true)
    (hi : i < (pullTxns table st.memTxnW).length)
    (hfail : o.graphOk i = false)
    (hok : ∀ j, j < i → o.graphOk j = true) :
    (syncTransactions o table st).memUserW = st.memUserW ∧
    (syncTransactions o table st).memTxnW = st.memTxnW ∧
    (syncTransactions o table st).storeUserW = st.storeUserW ∧
    (syncTransactions o table st).storeTxnW = st.storeTxnW ∧
    (syncTransactions o table st).txnGraph =
      st.txnGraph ++ (pullTxns table st.memTxnW).take i := by
  have habort := processTxnRows_abort o (pullTxns table st.memTxnW) 0 st i hi
    (by simpa using hfail) (by simpa using hok)
  have hf := processTxnRows_frame o (pullTxns table st.memTxnW) 0 st
  rcases hEq : processTxnRows o (pullTxns table st.memTxnW) 0 st with ⟨st1, flag⟩
  rw [hEq] at habort hf
  simp only at habort hf
  cases hlast : (pullTxns table st.memTxnW).getLast? with
  | none =>
    rw [List.getLast?_eq_none_iff] at hlast
    rw [hlast] at hi
    exact absurd hi (by simp)
  | some last =>
    unfold syncTransactions
    simp [hread, hlast, hEq, habort.1, habort.2, hf.1, hf.2.1, hf.2.2.1,
      hf.2.2.2.1]

theorem syncUsers_abort (o : UserOracle) (table : List UserRow)
    (st : EngineState) (i : Nat) (hread : o.readOk = true)
    (hi : i < (pullUsers table st.memUserW false).length)
    (hfail : (o.graphOk i && o.cacheOk i) = false)
    (hok : ∀ j, j < i → (o.graphOk j && o.cacheOk j) = true) :
    (syncUsers o false table st).memUserW = st.memUserW ∧
    (syncUsers o false table st).memTxnW = st.memTxnW ∧
    (syncUsers o false table st).storeUserW = st.storeUserW ∧
    (syncUsers o false table st).storeTxnW = st.storeTxnW := by
  have habort := processUserRows_abort o (pullUsers table st.memUserW false)
    0 st i hi (by simpa using hfail) (by simpa using hok)
  have hf := processUserRows_frame o (pullUsers table st.memUserW false) 0 st
  rcases hEq : processUserRows o (pullUsers table st.memUserW false) 0 st with ⟨st1, flag⟩
  rw [hEq] at habort hf
  simp only at habort hf
  cases hlast : (pullUsers table st.memUserW false).getLast? with
  | none =>
    rw [List.getLast?_eq_none_iff] at hlast
    rw [hlast] at hi
    exact absurd hi (by simp)
  | some last =>
    unfold syncUsers
    simp [hread, hlast, hEq, habort, hf.1, hf.2.1, hf.2.2.1, hf.2.2.2.1]

/-- One cycle of either stream preserves `WInv` and never decreases either
stored watermark. -/
theorem stepCycle_mono (c : Cycle) (st : EngineState) (h : WInv st) :
    WInv (stepCycle c st) ∧
    st.storeUserW ≤ (stepCycle c st).storeUserW ∧
    st.storeTxnW ≤ (stepCycle c st).storeTxnW := by
  cases c with
  | txns o table =>
    show WInv (syncTransactions o table st) ∧
      st.storeUserW ≤ (syncTransactions o table st).storeUserW ∧
      st.storeTxnW ≤ (syncTransactions o table st).storeTxnW
    cases hread : o.readOk with
    | false =>
      rw [syncTransactions_readfail o table st hread]
      exact ⟨h, le_refl _, le_refl _⟩
    | true =>
      cases hlast : (pullTxns table st.memTxnW).getLast? with
      | none =>
        unfold syncTransactions
        simp only [hread, if_true, hlast]
        exact ⟨h, le_refl _, le_refl _⟩
      | some last =>
        have hmem := getLast?_mem hlast
        have hlt : st.memTxnW < last.ts := mem_pullTxns_lt table st.memTxnW last hmem
        have hf := processTxnRows_frame o (pullTxns table st.memTxnW) 0 st
        rcases hEq : processTxnRows o (pullTxns table st.memTxnW) 0 st with ⟨st1, flag⟩
        rw [hEq] at hf
        simp only at hf
        unfold syncTransactions
        simp only [hread, if_true, hlast, hEq]
        cases flag with
        | false =>
          constructor
          · exact ⟨hf.1 ▸ hf.2.2.1 ▸ h.1, hf.2.1 ▸ hf.2.2.2.1 ▸ h.2⟩
          · exact ⟨le_of_eq hf.2.2.1.symm, le_of_eq hf.2.2.2.1.symm⟩
        | true =>
          cases hsave : o.saveOk with
          | true =>
            simp only [if_true]
            refine ⟨⟨?_, ?_⟩, ?_, ?_⟩
            · exact hf.1 ▸ hf.2.2.1 ▸ h.1
            · exact le_refl _
            · exact le_of_eq hf.2.2.1.symm
            · exact le_of_lt (lt_of_le_of_lt h.2 hlt)
          | false =>
            simp only [Bool.false_eq_true, if_false]
            refine ⟨⟨?_, ?_⟩, ?_, ?_⟩
            · exact hf.1 ▸ hf.2.2.1 ▸ h.1
            · exact hf.2.2.2.1 ▸ le_of_lt (lt_of_le_of_lt h.2 hlt)
            · exact le_of_eq hf.2.2.1.symm
            · exact le_of_eq hf.2.2.2.1.symm
  | users o force table =>
    show WInv (syncUsers o force table st) ∧
      st.storeUserW ≤ (syncUsers o force table st).storeUserW ∧
      st.storeTxnW ≤ (syncUsers o force table st).storeTxnW
    cases hread : o.readOk with
    | false =>
      rw [syncUsers_readfail o force table st hread]
      exact ⟨h, le_refl _, le_refl _⟩
    | true =>
      cases force with
      | true =>
        have hff := syncUsers_force_frame o table st
        refine ⟨⟨?_, ?_⟩, ?_, ?_⟩
        · exact hff.1 ▸ hff.2.2.1 ▸ h.1
        · exact hff.2.1 ▸ hff.2.2.2 ▸ h.2
        · exact le_of_eq hff.2.2.1.symm
        · exact le_of_eq hff.2.2.2.symm
      | false =>
        cases hlast : (pullUsers table st.memUserW false).getLast? with
        | none =>
          unfold syncUsers
          simp only [hread, if_true, hlast]
          exact ⟨h, le_refl _, le_refl _⟩
        | some last =>
          have hmem := getLast?_mem hlast
          have hlt : st.memUserW < last.ts := mem_pullUsers_lt table st.memUserW last hmem
          have hf := processUserRows_frame o (pullUsers table st.memUserW false) 0 st
          rcases hEq : processUserRows o (pullUsers table st.memUserW false) 0 st with ⟨st1, flag⟩
          rw [hEq] at hf
          simp only at hf
          unfold syncUsers
          simp only [hread, if_true, hlast, hEq, Bool.false_eq_true, if_false]
          cases flag with
          | false =>
            constructor
            · exact ⟨hf.1 ▸ hf.2.2.1 ▸ h.1, hf.2.1 ▸ hf.2.2.2.1 ▸ h.2⟩
            · exact ⟨le_of_eq hf.2.2.1.symm, le_of_eq hf.2.2.2.1.symm⟩
          | true =>
            cases hsave : o.saveOk with
            | true =>
              simp only [if_true]
              refine ⟨⟨?_, ?_⟩, ?_, ?_⟩
              · exact le_refl _
              · exact hf.2.1 ▸ hf.2.2.2.1 ▸ h.2
              · exact le_of_lt (lt_of_le_of_lt h.1 hlt)
              · exact le_of_eq hf.2.2.2.1.symm
            | false =>
              simp only [Bool.false_eq_true, if_false]
              refine ⟨⟨?_, ?_⟩, ?_, ?_⟩
              · exact hf.2.2.1 ▸ le_of_lt (lt_of_le_of_lt h.1 hlt)
              · exact hf.2.1 ▸ hf.2.2.2.1 ▸ h.2
              · exact le_of_eq hf.2.2.1.symm
              · exact le_of_eq hf.2.2.2.1.symm

/-- `WInv` and stored-watermark monotonicity extend to every sequence of
cycles. -/
theorem runCycles_mono (cs : List Cycle) (st : EngineState) (h : WInv st) :
    WInv (runCycles cs st) ∧
    st.storeUserW ≤ (runCycles cs st).storeUserW ∧
    st.storeTxnW ≤ (runCycles cs st).storeTxnW := by
  induction cs generalizing st with
  | nil => exact ⟨h, le_refl _, le_refl _⟩
  | cons c cs ih =>
    have h1 := stepCycle_mono c st h
    have h2 := ih (stepCycle c st) h1.1
    exact ⟨h2.1, le_trans h1.2.1 h2.2.1, le_trans h1.2.2 h2.2.2⟩

theorem pull_txnRowA : pullTxns [txnRowA] 0 = [txnRowA] := by
  have hf : ([txnRowA].filter fun r => decide (0 < r.ts) && settledTxn r)
      = [txnRowA] := by
    simp [txnRowA, settledTxn]
  unfold pullTxns
  rw [hf, List.mergeSort_of_sorted (by simp), List.take_of_length_le (by simp)]

theorem pull_userRowA : pullUsers [userRowA] 0 false = [userRowA] := by
  have hf : ([userRowA].filter fun r => decide (0 < r.ts)) = [userRowA] := by
    simp [userRowA]
  unfold pullUsers
  simp only [Bool.false_eq_true, if_false]
  rw [hf, List.mergeSort_of_sorted (by simp), List.take_of_length_le (by simp)]

/-! ## The claims -/

/-- C1: for both streams and every sequence of sync cycles, the stored
watermark is monotonically non-decreasing (from any state satisfying the
load-time invariant `WInv`); and a fully successful cycle — read, every
per-row write, and the cursor write acknowledged — leaves the stored
watermark equal to the timestamp of the last record of that cycle's
batch, the batch being ordered by timestamp ascending. -/
theorem claim_C1_cursor_monotonicity :
    (∀ (cs : List Cycle) (st : EngineState), WInv st →
      st.storeUserW ≤ (runCycles cs st).storeUserW ∧
      st.storeTxnW ≤ (runCycles cs st).storeTxnW) ∧
    (∀ (o : TxnOracle) (table : List TxnRow) (st : EngineState)
      (last : TxnRow), o.readOk = true → (∀ j, o.graphOk j = true) →
      o.saveOk = true → (pullTxns table st.memTxnW).getLast? = some last →
      (syncTransactions o table st).storeTxnW = last.ts ∧
      (pullTxns table st.memTxnW).Pairwise fun a b => a.ts ≤ b.ts) ∧
    (∀ (o : UserOracle) (table : List UserRow) (st : EngineState)
      (last : UserRow), o.readOk = true → (∀ j, o.graphOk j = true) →
      (∀ j, o.cacheOk j = true) → o.saveOk = true →
      (pullUsers table st.memUserW false).getLast? = some last →
      (syncUsers o false table st).storeUserW = last.ts) := by
  refine ⟨?_, ?_, ?_⟩
  · intro cs st h
    exact (runCycles_mono cs st h).2
  · intro o table st last h1 h2 h3 h4
    exact ⟨(syncTransactions_success o table st last h1 h2 h3 h4).1,
      pullTxns_sorted table st.memTxnW⟩
  · intro o table st last h1 h2 h3 h4 h5
    exact (syncUsers_success o table st last h1 h2 h3 h4 h5).1

theorem claim_C1_witness :
    (st0.storeTxnW ≤ (runCycles [Cycle.txns okTxnOracle [txnRowA]] st0).storeTxnW) ∧
    (syncTransactions okTxnOracle [txnRowA] st0).storeTxnW = txnRowA.ts ∧
    (syncUsers okUserOracle false [userRowA] st0).storeUserW = userRowA.ts := by
  have hw : WInv st0 := ⟨le_refl 0, le_refl 0⟩
  have hlastT : (pullTxns [txnRowA] st0.memTxnW).getLast? = some txnRowA := by
    rw [show st0.memTxnW = 0 from rfl, pull_txnRowA]
    rfl
  have hlastU : (pullUsers [userRowA] st0.memUserW false).getLast? = some userRowA := by
    rw [show st0.memUserW = 0 from rfl, pull_userRowA]
    rfl
  refine ⟨?_, ?_, ?_⟩
  · exact (claim_C1_cursor_monotonicity.1 [Cycle.txns okTxnOracle [txnRowA]] st0 hw).2
  · exact (claim_C1_cursor_monotonicity.2.1 okTxnOracle [txnRowA] st0 txnRowA
      rfl (fun _ => rfl) rfl hlastT).1
  · exact claim_C1_cursor_monotonicity.2.2 okUserOracle [userRowA] st0 userRowA
      rfl (fun _ => rfl) (fun _ => rfl) rfl hlastU

/-- C2: a cycle that fails does not advance the stored cursor beyond the
last fully committed record. A read failure leaves the whole state (in
particular the cursor) untouched, for either stream; a graph write
failing at batch position `i` leaves both stored watermarks unchanged,
commits exactly the first `i` records, and the unchanged stored
transaction watermark is at most the timestamp of every committed record
of the batch; a failing per-row write in a users batch likewise leaves
all watermarks unchanged. -/
theorem claim_C2_no_advance_on_failure :
    (∀ (o : TxnOracle) (table : List TxnRow) (st : EngineState),
      o.readOk = false → syncTransactions o table st = st) ∧
    (∀ (o : UserOracle) (force : Bool) (table : List UserRow)
      (st : EngineState), o.readOk = false → syncUsers o force table st = st) ∧
    (∀ (o : TxnOracle) (table : List TxnRow) (st : EngineState) (i : Nat),
      st.storeTxnW ≤ st.memTxnW → o.readOk = true →
      i < (pullTxns table st.memTxnW).length → o.graphOk i = false →
      (∀ j, j < i → o.graphOk j = true) →
      (syncTransactions o table st).storeTxnW = st.storeTxnW ∧
      (syncTransactions o table st).storeUserW = st.storeUserW ∧
      (syncTransactions o table st).txnGraph =
        st.txnGraph ++ (pullTxns table st.memTxnW).take i ∧
      ∀ r ∈ (pullTxns table st.memTxnW).take i,
        (syncTransactions o table st).storeTxnW ≤ r.ts) ∧
    (∀ (o : UserOracle) (table : List UserRow) (st : EngineState) (i : Nat),
      o.readOk = true → i < (pullUsers table st.memUserW false).length →
      (o.graphOk i && o.cacheOk i) = false →
      (∀ j, j < i → (o.graphOk j && o.cacheOk j) = true) →
      (syncUsers o false table st).storeUserW = st.storeUserW ∧
      (syncUsers o false table st).storeTxnW = st.storeTxnW) := by
  refine ⟨?_, ?_, ?_, ?_⟩
  · exact syncTransactions_readfail
  · exact syncUsers_readfail
  · intro o table st i hw hread hi hfail hok
    have ha := syncTransactions_abort o table st i hread hi hfail hok
    refine ⟨ha.2.2.2.1, ha.2.2.1, ha.2.2.2.2, ?_⟩
    intro r hr
    have hmem := List.take_subset i (pullTxns table st.memTxnW) hr
    have hlt := mem_pullTxns_lt table st.memTxnW r hmem
    rw [ha.2.2.2.1]
    exact le_of_lt (lt_of_le_of_lt hw hlt)
  · intro o table st i hread hi hfail hok
    have ha := syncUsers_abort o table st i hread hi hfail hok
    exact ⟨ha.2.2.1, ha.2.2.2⟩

theorem claim_C2_witness :
    (syncTransactions graphFailTxnOracle [txnRowA] st0).storeTxnW = st0.storeTxnW ∧
    (syncTransactions graphFailTxnOracle [txnRowA] st0).txnGraph =
      st0.txnGraph ++ (pullTxns [txnRowA] st0.memTxnW).take 0 ∧
    (syncUsers cacheFailUserOracle false [userRowA] st0).storeUserW = st0.storeUserW := by
  have hlenT : 0 < (pullTxns [txnRowA] st0.memTxnW).length := by
    rw [show st0.memTxnW = 0 from rfl, pull_txnRowA]
    exact Nat.zero_lt_one
  have hlenU : 0 < (pullUsers [userRowA] st0.memUserW false).length := by
    rw [show st0.memUserW = 0 from rfl, pull_userRowA]
    exact Nat.zero_lt_one
  have hvac : ∀ j, j < 0 → graphFailTxnOracle.graphOk j = true :=
    fun j hj => absurd hj (Nat.not_lt_zero j)
  have hvacU : ∀ j, j < 0 →
      (cacheFailUserOracle.graphOk j && cacheFailUserOracle.cacheOk j) = true :=
    fun j hj => absurd hj (Nat.not_lt_zero j)
  have ht := claim_C2_no_advance_on_failure.2.2.1 graphFailTxnOracle [txnRowA]
    st0 0 (le_refl 0) rfl hlenT rfl hvac
  have hu := claim_C2_no_advance_on_failure.2.2.2 cacheFailUserOracle [userRowA]
    st0 0 rfl hlenU rfl hvacU
  exact ⟨ht.1, ht.2.2.1, hu.1⟩

theorem pull_txnRowB : pullTxns [txnRowB] 0 = [txnRowB] := by
  have hf : ([txnRowB].filter fun r => decide (0 < r.ts) && settledTxn r)
      = [txnRowB] := by
    simp [txnRowB, settledTxn]
  unfold pullTxns
  rw [hf, List.mergeSort_of_sorted (by simp), List.take_of_length_le (by simp)]

/-- C8: feedback failures are isolated to their own record: with arbitrary
feedback oracles, whenever the read, every per-row graph write and the
cursor write succeed, every record of the batch is still projected (none
is skipped after a feedback failure) and the cursor still advances to the
last record's timestamp. -/
theorem claim_C8_feedback_isolated :
    ∀ (o : TxnOracle) (table : List TxnRow) (st : EngineState)
      (last : TxnRow), o.readOk = true → (∀ j, o.graphOk j = true) →
      o.saveOk = true → (pullTxns table st.memTxnW).getLast? = some last →
      (syncTransactions o table st).txnGraph =
        st.txnGraph ++ pullTxns table st.memTxnW ∧
      (syncTransactions o table st).storeTxnW = last.ts ∧
      (syncTransactions o table st).memTxnW = last.ts := by
  intro o table st last h1 h2 h3 h4
  have hs := syncTransactions_success o table st last h1 h2 h3 h4
  exact ⟨hs.2.2.1, hs.1, hs.2.1⟩

theorem claim_C8_witness :
    (syncTransactions fbFailTxnOracle [txnRowB] st0).txnGraph =
      st0.txnGraph ++ pullTxns [txnRowB] st0.memTxnW ∧
    (syncTransactions fbFailTxnOracle [txnRowB] st0).storeTxnW = txnRowB.ts ∧
    (syncTransactions fbFailTxnOracle [txnRowB] st0).memTxnW = txnRowB.ts := by
  have hlast : (pullTxns [txnRowB] st0.memTxnW).getLast? = some txnRowB := by
    rw [show st0.memTxnW = 0 from rfl, pull_txnRowB]
    rfl
  exact claim_C8_feedback_isolated fbFailTxnOracle [txnRowB] st0 txnRowB
    rfl (fun _ => rfl) rfl hlast

/-- C9 as stated is false: a forced full users sync is capped at 1000
rows, so with 1001 historical rows the last one is not re-read. -/
theorem claim_C9_counterexample :
    (⟨1000, "", "", none, 1000⟩ : UserRow) ∈ usersTableBig ∧
    (⟨1000, "", "", none, 1000⟩ : UserRow) ∉ pullUsers usersTableBig 0 true := by
  constructor
  · unfold usersTableBig
    exact List.mem_map.mpr ⟨1000, List.mem_range.mpr (by norm_num), rfl⟩
  · have hsorted : usersTableBig.Pairwise fun a b => userLe a b = true := by
      unfold usersTableBig
      refine List.pairwise_map.mpr ?_
      refine (List.pairwise_lt_range 1001).imp ?_
      intro a b hab
      rw [userLe, decide_eq_true_iff]
      exact Nat.le_of_lt hab
    have hpull : pullUsers usersTableBig 0 true =
        (List.range 1000).map fun i => (⟨i, "", "", none, i⟩ : UserRow) := by
      unfold pullUsers
      rw [if_pos rfl, List.mergeSort_of_sorted hsorted]
      unfold usersTableBig
      rw [← List.map_take, List.take_range]
      norm_num
    rw [hpull]
    intro hmem
    obtain ⟨i, hi, hEq⟩ := List.mem_map.mp hmem
    have : i = 1000 := congrArg UserRow.uid hEq
    rw [this] at hi
    exact absurd (List.mem_range.mp hi) (by norm_num)

/-- C9 amended: a forced users sync ignores the stored watermark and reads
from the beginning of the table up to the 1000-row batch cap — in
particular it re-reads every historical row whenever the table fits in one
batch — and it leaves both the in-memory and the stored Users watermark
exactly as they were before the call. -/
theorem claim_C9_force_full :
    (∀ (o : UserOracle) (table : List UserRow) (st : EngineState),
      (syncUsers o true table st).memUserW = st.memUserW ∧
      (syncUsers o true table st).storeUserW = st.storeUserW) ∧
    (∀ (table : List UserRow) (w w2 : Nat),
      pullUsers table w true = pullUsers table w2 true) ∧
    (∀ (table : List UserRow) (w : Nat) (r : UserRow),
      table.length ≤ 1000 → r ∈ table → r ∈ pullUsers table w true) := by
  refine ⟨?_, ?_, ?_⟩
  · intro o table st
    have hff := syncUsers_force_frame o table st
    exact ⟨hff.1, hff.2.2.1⟩
  · intro table w w2
    rfl
  · intro table w r hlen hmem
    unfold pullUsers
    rw [if_pos rfl]
    rw [List.take_of_length_le]
    · exact (List.mergeSort_perm table userLe).mem_iff.mpr hmem
    · rw [(List.mergeSort_perm table userLe).length_eq]
      exact hlen

theorem claim_C9_witness :
    userRowA ∈ pullUsers [userRowA] 77 true := by
  exact claim_C9_force_full.2.2 [userRowA] 77 userRowA (by norm_num)
    (List.mem_singleton.mpr rfl)

theorem ratchetRisk_mem (db : List (String × ℚ)) (l : String) (v : ℚ)
    (e : String × ℚ) (he : e ∈ db)
    (hs : l.data.isSuffixOf e.1.data = true) :
    (e.1, max e.2 v) ∈ ratchetRisk db l v := by
  refine List.mem_map.mpr ⟨e, he, ?_⟩
  simp [hs]

theorem feedbackTxn_riskDB_eq (b : Bool) (r : TxnRow) (st : EngineState)
    (hrisk : r.risk > 1/2) :
    (feedbackTxn true b r st).riskDB =
      ratchetRisk st.riskDB (vpaLocalPart r.payer) (r.risk * 100) := by
  unfold feedbackTxn
  rw [if_pos hrisk]
  cases b with
  | true => rfl
  | false => rfl

theorem ratchetRisk_nondec (db : List (String × ℚ)) (l : String) (v : ℚ) :
    riskNondec db (ratchetRisk db l v) := by
  induction db with
  | nil => exact List.Forall₂.nil
  | cons e rest ih =>
    unfold ratchetRisk at ih ⊢
    simp only [List.map_cons]
    cases hs : l.data.isSuffixOf e.1.data with
    | true =>
      rw [if_pos rfl]
      exact List.Forall₂.cons ⟨rfl, le_max_left _ _⟩ ih
    | false =>
      rw [if_neg Bool.false_ne_true]
      exact List.Forall₂.cons ⟨rfl, le_refl _⟩ ih

theorem riskNondec_refl (a : List (String × ℚ)) : riskNondec a a :=
  List.forall₂_same.mpr fun _ _ => ⟨rfl, le_refl _⟩

theorem riskNondec_trans {a b c : List (String × ℚ)}
    (hab : riskNondec a b) (hbc : riskNondec b c) : riskNondec a c := by
  induction hab generalizing c with
  | nil =>
    cases hbc
    exact List.Forall₂.nil
  | cons hxy hrest ih =>
    cases hbc with
    | cons hyz hrest2 =>
      exact List.Forall₂.cons ⟨hxy.1.trans hyz.1, hxy.2.trans hyz.2⟩ (ih hrest2)

theorem feedbackTxn_riskDB_nondec (a b : Bool) (r : TxnRow)
    (st : EngineState) :
    riskNondec st.riskDB (feedbackTxn a b r st).riskDB := by
  unfold feedbackTxn
  split
  · cases a with
    | false => exact riskNondec_refl _
    | true =>
      simp only [if_true]
      cases b with
      | true => exact ratchetRisk_nondec _ _ _
      | false => exact ratchetRisk_nondec _ _ _
  · exact riskNondec_refl _

/-- C4: the feedback relational write runs only above the 0.50 threshold
(below or at it the whole invocation is a no-op); when it runs, every
relational row matching the payer's local part moves to
`max(current, risk*100)`; and over any sequence of feedback invocations
(succeeding or failing arbitrarily) every stored relational risk score is
non-decreasing. -/
theorem claim_C4_feedback_ratchet :
    (∀ (relOk cacheOk : Bool) (r : TxnRow) (st : EngineState),
      r.risk ≤ 1/2 → feedbackTxn relOk cacheOk r st = st) ∧
    (∀ (cacheOk : Bool) (r : TxnRow) (st : EngineState), r.risk > 1/2 →
      ∀ e ∈ st.riskDB,
        (vpaLocalPart r.payer).data.isSuffixOf e.1.data = true →
        (e.1, max e.2 (r.risk * 100)) ∈
          (feedbackTxn true cacheOk r st).riskDB) ∧
    (∀ (steps : List (Bool × Bool × TxnRow)) (st : EngineState),
      riskNondec st.riskDB (feedbackFold steps st).riskDB) := by
  refine ⟨?_, ?_, ?_⟩
  · intro relOk cacheOk r st h
    unfold feedbackTxn
    rw [if_neg (not_lt.mpr h)]
  · intro cacheOk r st hrisk e he hs
    rw [feedbackTxn_riskDB_eq cacheOk r st hrisk]
    exact ratchetRisk_mem st.riskDB (vpaLocalPart r.payer) (r.risk * 100) e he hs
  · intro steps st
    induction steps generalizing st with
    | nil => exact riskNondec_refl _
    | cons p rest ih =>
      exact riskNondec_trans
        (feedbackTxn_riskDB_nondec p.1 p.2.1 p.2.2 st)
        (ih (feedbackTxn p.1 p.2.1 p.2.2 st))

theorem claim_C4_witness :
    feedbackTxn true true txnRowA stRisk = stRisk ∧
    ("9876543210", max 30 (txnRowB.risk * 100)) ∈
      (feedbackTxn true true txnRowB stRisk).riskDB ∧
    riskNondec stRisk.riskDB
      (feedbackFold [(true, true, txnRowB)] stRisk).riskDB := by
  refine ⟨?_, ?_, ?_⟩
  · exact claim_C4_feedback_ratchet.1 true true txnRowA stRisk
      (by norm_num [txnRowA])
  · exact claim_C4_feedback_ratchet.2.1 true txnRowB stRisk
      (by norm_num [txnRowB]) ("9876543210", 30) (by simp [stRisk]) (by decide)
  · exact claim_C4_feedback_ratchet.2.2 [(true, true, txnRowB)] stRisk

/-- C7: when the payer's feature-cache entry exists before a triggering
feedback invocation, the written vector carries the transaction's risk in
its risk element and the previously stored kyc element unchanged. -/
theorem claim_C7_cache_preserves_kyc :
    ∀ (r : TxnRow) (st : EngineState) (v : ℚ × ℚ), r.risk > 1/2 →
      assocGet st.cache (fbCacheKey r.payer) = some v →
      assocGet (feedbackTxn true true r st).cache (fbCacheKey r.payer) =
        some (r.risk, v.2) := by
  intro r st v hrisk hget
  unfold feedbackTxn
  rw [if_pos hrisk]
  simp only [if_true]
  show assocGet (assocSet st.cache (fbCacheKey r.payer)
      (r.risk, match assocGet st.cache (fbCacheKey r.payer) with
        | some v => v.2
        | none => 0)) (fbCacheKey r.payer) = some (r.risk, v.2)
  rw [hget]
  exact assocGet_assocSet_self st.cache (fbCacheKey r.payer) (r.risk, v.2)

theorem claim_C7_witness :
    assocGet (feedbackTxn true true txnRowB stRisk).cache
      (fbCacheKey txnRowB.payer) = some (txnRowB.risk, (0, (1 : ℚ)).2) := by
  exact claim_C7_cache_preserves_kyc txnRowB stRisk (0, 1)
    (by norm_num [txnRowB]) rfl

/-- C10: the cached risk element is overwritten unconditionally
(last-writer-wins): after two triggering transactions on the same payer
with risks `r1 > r2 > 0.50`, the cached risk element ends at the lower
`r2`, while each matching relational row keeps its ratcheted
`max(current, r1*100)`. -/
theorem claim_C10_cache_last_writer_wins :
    ∀ (r1 r2 : TxnRow) (st : EngineState), r1.payer = r2.payer →
      r2.risk < r1.risk → r2.risk > 1/2 →
      ((assocGet
        (feedbackTxn true true r2 (feedbackTxn true true r1 st)).cache
        (fbCacheKey r2.payer)).map Prod.fst = some r2.risk) ∧
      ∀ e ∈ st.riskDB,
        (vpaLocalPart r1.payer).data.isSuffixOf e.1.data = true →
        (e.1, max e.2 (r1.risk * 100)) ∈
          (feedbackTxn true true r2 (feedbackTxn true true r1 st)).riskDB := by
  intro r1 r2 st hpayer hlt hthresh
  have hrisk1 : r1.risk > 1/2 := lt_trans hthresh hlt
  constructor
  · have h2 := feedbackTxn_riskDB_eq true r2 (feedbackTxn true true r1 st) hthresh
    unfold feedbackTxn
    rw [if_pos hthresh]
    simp only [if_true]
    rw [assocGet_assocSet_self]
    rfl
  · intro e he hs
    rw [feedbackTxn_riskDB_eq true r2 (feedbackTxn true true r1 st) hthresh,
      feedbackTxn_riskDB_eq true r1 st hrisk1]
    have hmax : max (max e.2 (r1.risk * 100)) (r2.risk * 100)
        = max e.2 (r1.risk * 100) := by
      refine max_eq_left (le_max_of_le_right ?_)
      exact mul_le_mul_of_nonneg_right (le_of_lt hlt) (by norm_num)
    rw [← hmax, ← hpayer]
    refine ratchetRisk_mem _ _ _ (e.1, max e.2 (r1.risk * 100)) ?_ hs
    exact ratchetRisk_mem st.riskDB (vpaLocalPart r1.payer) (r1.risk * 100) e he hs

theorem claim_C10_witness :
    ((assocGet
      (feedbackTxn true true txnRowC (feedbackTxn true true txnRowB stRisk)).cache
      (fbCacheKey txnRowC.payer)).map Prod.fst = some txnRowC.risk) ∧
    ("9876543210", max 30 (txnRowB.risk * 100)) ∈
      (feedbackTxn true true txnRowC (feedbackTxn true true txnRowB stRisk)).riskDB := by
  have h := claim_C10_cache_last_writer_wins txnRowB txnRowC stRisk rfl
    (by norm_num [txnRowB, txnRowC]) (by norm_num [txnRowC])
  exact ⟨h.1, h.2 ("9876543210", 30) (by simp [stRisk]) (by decide)⟩

/-- C3 as stated is false: the two Entity Reader versions do not compute
the same identifier for the same raw phone number — the consolidated app
strips `+91` and appends `@okaxis`, the DB Poller appends `@upibank` to
the raw phone. -/
theorem claim_C3_counterexample :
    appDerivedKey "+919876543210" ≠ pollerDerivedKey "+919876543210" := by
  decide

/-- C3 amended: within each Entity Reader version the projection key is a
pure, deterministic function of the raw phone number alone (user rows
differing in every other field map to the same key), and re-projecting
the same source row is a no-op on the graph (the keyed upsert is
idempotent, for the app version and for the poller version); but the two
versions do not compute the same identifier string (see the
counterexample). -/
theorem claim_C3_derived_key :
    (∀ r1 r2 : UserRow, r1.phone = r2.phone →
      appUserKey r1 = appUserKey r2) ∧
    (∀ r1 r2 : UserRow, r1.phone = r2.phone →
      pollerDerivedKey r1.phone = pollerDerivedKey r2.phone) ∧
    (∀ (g : List (String × UserProps)) (r : UserRow),
      assocSet (assocSet g (appUserKey r) (appUserProps r)) (appUserKey r)
        (appUserProps r) = assocSet g (appUserKey r) (appUserProps r)) ∧
    (∀ (g : List (String × PollerUserProps)) (r : UserRow),
      assocSet (assocSet g (pollerUserKey r) (pollerUserProps r))
        (pollerUserKey r) (pollerUserProps r) =
        assocSet g (pollerUserKey r) (pollerUserProps r)) := by
  refine ⟨?_, ?_, ?_, ?_⟩
  · intro r1 r2 h
    unfold appUserKey
    rw [h]
  · intro r1 r2 h
    rw [h]
  · intro g r
    exact assocSet_idem g (appUserKey r) (appUserProps r)
  · intro g r
    exact assocSet_idem g (pollerUserKey r) (pollerUserProps r)

theorem claim_C3_witness :
    appUserKey userRowA = appUserKey userRowB ∧
    assocSet (assocSet [] (appUserKey userRowA) (appUserProps userRowA))
      (appUserKey userRowA) (appUserProps userRowA) =
      assocSet [] (appUserKey userRowA) (appUserProps userRowA) := by
  exact ⟨claim_C3_derived_key.1 userRowA userRowB rfl,
    claim_C3_derived_key.2.2.1 [] userRowA⟩

/-- C5 as stated is false for the consolidated app service: with the
Cursor Store unreachable at initial load, startup does not halt —
`load_state`'s bare `except` swallows the error and the service starts
with the default epoch watermarks. -/
theorem claim_C5_counterexample :
    appStartup RedisState.down =
      Except.ok [("last_user_time", "2023-01-01"),
        ("last_txn_time", "2023-01-01")] := by
  rfl

/-- C5 amended: only the DB Poller service escalates an unreachable
Cursor Store at initial load and halts startup; the consolidated app
service swallows the failure and proceeds with default epoch watermarks.
With a reachable store both services start. -/
theorem claim_C5_fatal_load :
    pollerStartup RedisState.down =
      Except.error PersistenceError.unreachable ∧
    (∀ kv, ∃ s, pollerStartup (RedisState.up kv) = Except.ok s) ∧
    (∀ r, ∃ s, appStartup r = Except.ok s) := by
  refine ⟨rfl, ?_, ?_⟩
  · intro kv
    exact ⟨_, rfl⟩
  · intro r
    exact ⟨_, rfl⟩

/-- C6 as stated is false: a cursor write against an unreachable store
returns normally (the error is swallowed), it does not surface any
`PersistenceError` to the caller. -/
theorem claim_C6_counterexample :
    appSaveState RedisState.down
      [("last_txn_time", "2023-01-01 00:00:00")]
      "last_txn_time" "2024-05-01 00:00:00" =
    Except.ok ([("last_txn_time", "2024-05-01 00:00:00")],
      RedisState.down) := by
  rfl

/-- C6 amended: a watermark write against an unreachable store never
propagates an error in either service: the app's `except: pass` returns
normally with the in-memory dict updated and the store untouched, and
the poller's `except` logs and returns normally with the store
untouched. -/
theorem claim_C6_save_swallowed :
    (∀ (state : List (String × String)) (key value : String),
      appSaveState RedisState.down state key value =
        Except.ok (assocSet state key value, RedisState.down)) ∧
    (∀ state, pollerSaveState RedisState.down state =
      Except.ok RedisState.down) := by
  refine ⟨?_, ?_⟩
  · intro state key value
    rfl
  · intro state
    rfl

end TxnZero
